import Mathlib

/-!
Verification of the loopcraft audio-looper core against its specification.

The JavaScript sources are embedded shallowly:

* floating-point sample values and derived quantities are modelled as `ℚ`;
* JavaScript `Math.round` is `⌊x + 1/2⌋` (round half toward `+∞`);
* the transcendental primitives `Math.PI`, `Math.cos`, `Math.sin`,
  `Math.sqrt` and `Math.log2` have no exact counterpart on `ℚ`, so the
  analysis functions are parametrised over a `JSMath` record supplying
  them; a theorem that needs a fact about one of them (only
  non-negativity of `sqrt` is ever needed) takes it as a hypothesis;
* a JavaScript division whose result can be non-finite (`NaN` or `±∞`)
  is modelled as `Option ℚ` with `none` for the non-finite case;
* in-place mutation of a buffer's sample arrays is modelled by a
  function returning the final contents of the mutated object.
-/

/-- JavaScript `Math.round`: round half toward positive infinity. -/
def jsRound (x : ℚ) : ℤ := ⌊x + 1 / 2⌋

/-- JavaScript division where the result may be non-finite: dividing by
zero produces `NaN` (for a zero numerator) or `±∞`, both modelled as
`none`. -/
def jsDiv (x y : ℚ) : Option ℚ := if y = 0 then none else some (x / y)

/-- The transcendental primitives of JavaScript `Math` used by the
analyser, left abstract because exact rational versions do not exist. -/
structure JSMath where
  pi : ℚ
  cos : ℚ → ℚ
  sin : ℚ → ℚ
  sqrt : ℚ → ℚ
  log2 : ℚ → ℚ

/-- A concrete (degenerate) instantiation of the abstract `Math`
primitives, used only at inputs whose control flow never consults them. -/
def mathZero : JSMath :=
  { pi := 0, cos := fun _ => 0, sin := fun _ => 0, sqrt := fun _ => 0,
    log2 := fun _ => 0 }

/-- `Math.max(...xs)` over a non-empty array (the empty case, which
JavaScript maps to `-∞`, never arises: callers pass 12-element arrays). -/
def listMax : List ℚ → ℚ
  | [] => 0
  | h :: t => t.foldl max h

/-- Split a list into consecutive chunks of `n` elements (the final
chunk may be shorter).  This is the hop traversal
`for i = 0; i < data.length; i += n`, each iteration reading
`data.slice(i, i + n)`. -/
def chunks (n : ℕ) (l : List ℚ) : List (List ℚ) :=
  if h : l = [] ∨ n = 0 then []
  else l.take n :: chunks n (l.drop n)
termination_by l.length
decreasing_by
  push_neg at h
  simp only [List.length_drop]
  exact Nat.sub_lt (List.length_pos.mpr h.1) (Nat.pos_of_ne_zero h.2)

/-- Energy envelope of `AudioAnalyzer.detectTempo` (audio-analyzer.js,
hop size 512): each hop contributes the sum of absolute sample values
over the hop divided by the *nominal* hop size 512. -/
def envelopeA (data : List ℚ) : List ℚ :=
  (chunks 512 data).map (fun c => ((c.map (fun x => |x|)).sum) / 512)

/-- Energy envelope of the worker's `detectTempo` (analyzer-worker.js,
hop size 2048): each hop contributes the sum of absolute sample values
divided by `end - i`, the *actual* number of samples in the hop. -/
def envelopeW (data : List ℚ) : List ℚ :=
  (chunks 2048 data).map (fun c => ((c.map (fun x => |x|)).sum) / (c.length : ℚ))

/-- The specification's per-hop value: the mean absolute sample value
over the hop's actual samples. -/
def specMeanAbs (c : List ℚ) : ℚ := ((c.map (fun x => |x|)).sum) / (c.length : ℚ)

/-- `minLag` of the tempo search: `Math.floor(60 * (sampleRate / hopSize) / maxBPM)`
with `maxBPM = 180`. -/
def minLagOf (sampleRate hopSize : ℕ) : ℕ :=
  (⌊60 * ((sampleRate : ℚ) / (hopSize : ℚ)) / 180⌋).toNat

/-- `maxLag` of the tempo search: `Math.floor(60 * (sampleRate / hopSize) / minBPM)`
with `minBPM = 60`. -/
def maxLagOf (sampleRate hopSize : ℕ) : ℕ :=
  (⌊60 * ((sampleRate : ℚ) / (hopSize : ℚ)) / 60⌋).toNat

/-- One step of the best-lag scan.  `count = 0` makes the JavaScript
`correlation /= count` produce `NaN`, and `NaN > bestCorr` is false, so
the candidate is skipped; the initial `bestCorr = -Infinity` is `none`,
which any finite correlation beats.  The comparison is strict, so the
first lag attaining the maximum wins. -/
def lagStep (corrOf : ℕ → ℕ × ℚ) (best : Option ℚ × ℕ) (lag : ℕ) : Option ℚ × ℕ :=
  let c := corrOf lag
  if c.1 = 0 then best
  else
    let corr := c.2 / (c.1 : ℚ)
    match best.1 with
    | none => (some corr, lag)
    | some b => if b < corr then (some corr, lag) else best

/-- `AudioAnalyzer.detectTempo` (audio-analyzer.js): autocorrelation of
the hop-512 energy envelope over lags `[minLag, maxLag)`, every lag and
every envelope index.  When no lag is ever scored (`bestLag = 0`) the
JavaScript computes `Math.round(positive / 0) = Infinity`, which the
final clamp `Math.max(60, Math.min(180, ·))` turns into `180`; that
clamped value is written directly here (faithful for a positive sample
rate). -/
def detectTempoA (data : List ℚ) (sampleRate : ℕ) : ℤ :=
  let env := envelopeA data
  let minLag := minLagOf sampleRate 512
  let maxLag := maxLagOf sampleRate 512
  let corrOf : ℕ → ℕ × ℚ := fun lag =>
    let count := env.length - lag
    (count, ((List.range count).map (fun i => env.getD i 0 * env.getD (i + lag) 0)).sum)
  let best := ((List.range (maxLag - minLag)).map (fun t => minLag + t)).foldl
    (lagStep corrOf) (none, 0)
  if best.2 = 0 then 180
  else max 60 (min 180 (jsRound (60 * ((sampleRate : ℚ) / 512) / (best.2 : ℚ))))

/-- The worker's `detectTempo` (analyzer-worker.js): first 10 seconds
only, hop 2048, every 5th lag, every other envelope index.  The same
`bestLag = 0` clamping note as for `detectTempoA` applies. -/
def detectTempoW (data : List ℚ) (sampleRate : ℕ) : ℤ :=
  let data10 := data.take (10 * sampleRate)
  let env := envelopeW data10
  let minLag := minLagOf sampleRate 2048
  let maxLag := maxLagOf sampleRate 2048
  let corrOf : ℕ → ℕ × ℚ := fun lag =>
    let count := (env.length - lag + 1) / 2
    (count, ((List.range count).map (fun t => env.getD (2 * t) 0 * env.getD (2 * t + lag) 0)).sum)
  let best := ((List.range ((maxLag - minLag + 4) / 5)).map (fun t => minLag + 5 * t)).foldl
    (lagStep corrOf) (none, 0)
  if best.2 = 0 then 180
  else max 60 (min 180 (jsRound (60 * ((sampleRate : ℚ) / 2048) / (best.2 : ℚ))))

/-! ### Basic facts about `chunks` and the envelopes -/

theorem chunks_nil (n : ℕ) : chunks n [] = [] := by
  rw [chunks]; simp

theorem chunks_getD (n : ℕ) (l : List ℚ) (k : ℕ)
    (hk : k < (chunks n l).length) :
    (chunks n l).getD k [] = (l.drop (n * k)).take n := by
  induction k generalizing l with
  | zero =>
    rw [chunks] at hk ⊢
    by_cases h : l = [] ∨ n = 0
    · simp [h] at hk
    · simp [h]
  | succ k ih =>
    rw [chunks] at hk ⊢
    by_cases h : l = [] ∨ n = 0
    · simp [h] at hk
    · simp only [h, dite_false, List.length_cons, List.getD_cons_succ] at hk ⊢
      rw [ih (l.drop n) (by omega), List.drop_drop]
      congr 2
      ring

theorem envelopeW_getD (data : List ℚ) (k : ℕ)
    (hk : k < (envelopeW data).length) :
    (envelopeW data).getD k 0 = specMeanAbs ((data.drop (2048 * k)).take 2048) := by
  unfold envelopeW at hk ⊢
  have hk2 : k < (chunks 2048 data).length := by simpa using hk
  rw [List.getD_eq_getElem _ _ hk, List.getElem_map,
    ← List.getD_eq_getElem _ ([] : List ℚ) hk2, chunks_getD 2048 data k hk2]
  rfl

theorem envelopeA_getD (data : List ℚ) (k : ℕ)
    (hk : k < (envelopeA data).length) :
    (envelopeA data).getD k 0
      = ((((data.drop (512 * k)).take 512).map (fun x => |x|)).sum) / 512 := by
  unfold envelopeA at hk ⊢
  have hk2 : k < (chunks 512 data).length := by simpa using hk
  rw [List.getD_eq_getElem _ _ hk, List.getElem_map,
    ← List.getD_eq_getElem _ ([] : List ℚ) hk2, chunks_getD 512 data k hk2]

/-- C5 as stated fails on `AudioAnalyzer.detectTempo`: on the
one-sample input `[1]` the single (short) hop's envelope value is
`1/512`, not the mean absolute value `1` of the hop's actual samples. -/
theorem envelopeA_not_mean_counterexample :
    (envelopeA [1]).getD 0 0 ≠ specMeanAbs (([(1 : ℚ)].drop (512 * 0)).take 512) ∧
      envelopeA [1] = [1 / 512] := by
  constructor
  · rw [show envelopeA [1] = [1 / 512] from by rw [envelopeA, chunks, chunks]; simp]
    rw [show (([(1 : ℚ)].drop (512 * 0)).take 512) = [1] from rfl]
    rw [show specMeanAbs [(1 : ℚ)] = 1 from by rw [specMeanAbs]; simp]
    simp
  · rw [envelopeA, chunks, chunks]; simp

/-- C5, amended: the worker's envelope divides each hop's sum of
absolute values by the hop's actual sample count, so every entry is the
mean absolute value of that hop; the `AudioAnalyzer` envelope divides
every hop's sum by the nominal hop size 512, which agrees with the mean
only on full hops. -/
theorem envelope_hop_semantics (data : List ℚ) (k : ℕ) :
    (k < (envelopeW data).length →
      (envelopeW data).getD k 0 = specMeanAbs ((data.drop (2048 * k)).take 2048)) ∧
    (k < (envelopeA data).length →
      (envelopeA data).getD k 0
        = ((((data.drop (512 * k)).take 512).map (fun x => |x|)).sum) / 512 ∧
      (512 * (k + 1) ≤ data.length →
        (envelopeA data).getD k 0 = specMeanAbs ((data.drop (512 * k)).take 512))) := by
  refine ⟨fun hk => envelopeW_getD data k hk, fun hk => ⟨envelopeA_getD data k hk, ?_⟩⟩
  intro hfull
  rw [envelopeA_getD data k hk, specMeanAbs]
  have hlen : ((data.drop (512 * k)).take 512).length = 512 := by
    simp only [List.length_take, List.length_drop]
    omega
  rw [hlen]
  norm_num

theorem envelope_hop_semantics_witness :
    (0 < (envelopeW [1, 2]).length →
      (envelopeW [1, 2]).getD 0 0 = specMeanAbs (([(1 : ℚ), 2].drop (2048 * 0)).take 2048)) ∧
    (0 < (envelopeA [1, 2]).length →
      (envelopeA [1, 2]).getD 0 0
        = (((([(1 : ℚ), 2].drop (512 * 0)).take 512).map (fun x => |x|)).sum) / 512 ∧
      (512 * (0 + 1) ≤ [(1 : ℚ), 2].length →
        (envelopeA [1, 2]).getD 0 0 = specMeanAbs (([(1 : ℚ), 2].drop (512 * 0)).take 512))) :=
  envelope_hop_semantics [1, 2] 0

/-! ### C6: tempo range and degenerate fallback -/

theorem clamp_mem (r : ℤ) : 60 ≤ max 60 (min 180 r) ∧ max 60 (min 180 r) ≤ 180 :=
  ⟨le_max_left _ _, max_le (by norm_num) (min_le_left _ _)⟩

theorem foldl_lagStep_const (corrOf : ℕ → ℕ × ℚ) (lags : List ℕ)
    (best : Option ℚ × ℕ) (h : ∀ lag ∈ lags, (corrOf lag).1 = 0) :
    lags.foldl (lagStep corrOf) best = best := by
  induction lags generalizing best with
  | nil => rfl
  | cons a t ih =>
    rw [List.foldl_cons, show lagStep corrOf best a = best from by
      rw [lagStep]; simp [h a (List.mem_cons_self a t)]]
    exact ih best (fun lag hl => h lag (List.mem_cons_of_mem a hl))

/-- C6: for every sample sequence and positive sample rate, both tempo
detectors return a BPM in `[60, 180]`; when the energy envelope is
shorter than `minLag + 1` no candidate lag is ever scored and both
return the fixed fallback `180` (the clamp of the `Infinity` produced
by `Math.round(positive / 0)`). -/
theorem detectTempo_range_and_fallback (data : List ℚ) (sampleRate : ℕ)
    (hsr : 0 < sampleRate) :
    (60 ≤ detectTempoA data sampleRate ∧ detectTempoA data sampleRate ≤ 180) ∧
    (60 ≤ detectTempoW data sampleRate ∧ detectTempoW data sampleRate ≤ 180) ∧
    ((envelopeA data).length < minLagOf sampleRate 512 + 1 →
      detectTempoA data sampleRate = 180) ∧
    ((envelopeW (data.take (10 * sampleRate))).length < minLagOf sampleRate 2048 + 1 →
      detectTempoW data sampleRate = 180) := by
  refine ⟨?_, ?_, ?_, ?_⟩
  · rw [detectTempoA]
    split
    · exact ⟨by norm_num, by norm_num⟩
    · exact clamp_mem _
  · rw [detectTempoW]
    split
    · exact ⟨by norm_num, by norm_num⟩
    · exact clamp_mem _
  · intro hdeg
    rw [detectTempoA, foldl_lagStep_const]
    · norm_num
    · intro lag hlag
      simp only [List.mem_map, List.mem_range] at hlag
      obtain ⟨t, _, rfl⟩ := hlag
      simp only
      omega
  · intro hdeg
    rw [detectTempoW, foldl_lagStep_const]
    · norm_num
    · intro lag hlag
      simp only [List.mem_map, List.mem_range] at hlag
      obtain ⟨t, _, rfl⟩ := hlag
      simp only
      have hz : (envelopeW (data.take (10 * sampleRate))).length
          - (minLagOf sampleRate 2048 + 5 * t) = 0 := by omega
      rw [hz]

theorem detectTempo_range_and_fallback_witness :
    0 < 44100 ∧
    ((60 ≤ detectTempoA [1] 44100 ∧ detectTempoA [1] 44100 ≤ 180) ∧
    (60 ≤ detectTempoW [1] 44100 ∧ detectTempoW [1] 44100 ≤ 180) ∧
    ((envelopeA [1]).length < minLagOf 44100 512 + 1 →
      detectTempoA [1] 44100 = 180) ∧
    ((envelopeW ([(1 : ℚ)].take (10 * 44100))).length < minLagOf 44100 2048 + 1 →
      detectTempoW [1] 44100 = 180)) :=
  ⟨by norm_num, detectTempo_range_and_fallback [1] 44100 (by norm_num)⟩

/-! ### The layer compositor and history manager (part_001, audio-recorder.js) -/

/-- A Web Audio `AudioBuffer`: a sample rate and one list of samples
per channel.  `length` (the frame count) and `numberOfChannels` are
derived as in the sources' usage. -/
structure AudioBuf where
  sampleRate : ℕ
  chans : List (List ℚ)
deriving DecidableEq

/-- `buffer.numberOfChannels`. -/
def AudioBuf.numberOfChannels (b : AudioBuf) : ℕ := b.chans.length

/-- `buffer.length` (frame count; all channels of a Web Audio buffer
have the same length). -/
def AudioBuf.frames (b : AudioBuf) : ℕ := (b.chans.headD []).length

/-- `buffer.getChannelData(c)`. -/
def AudioBuf.getChannelData (b : AudioBuf) (c : ℕ) : List ℚ := b.chans.getD c []

/-- `fadeLength = Math.floor(0.005 * audioBuffer.sampleRate)` (5 ms). -/
def fadeLengthOf (sampleRate : ℕ) : ℕ := (⌊(5 : ℚ) / 1000 * (sampleRate : ℚ)⌋).toNat

/-- One channel of `AudioRecorder.applyFades` (audio-recorder.js): the
fade-in loop multiplies `data[i]` by `i / fadeLength` for
`i < fadeLength`, then the fade-out loop multiplies
`data[len - fadeLength + i]` by `(fadeLength - i) / fadeLength`, i.e.
index `j ≥ len - fadeLength` by `(len - j) / fadeLength` (an assignment
at a negative typed-array index is a silent no-op). -/
def fadeChannel (fadeLength : ℕ) (data : List ℚ) : List ℚ :=
  let d1 := (List.range data.length).map (fun i =>
    if i < fadeLength then data.getD i 0 * ((i : ℚ) / (fadeLength : ℚ)) else data.getD i 0)
  (List.range d1.length).map (fun j =>
    if data.length - fadeLength ≤ j then
      d1.getD j 0 * (((data.length - j : ℕ) : ℚ) / (fadeLength : ℚ))
    else d1.getD j 0)

/-- `AudioRecorder.applyFades` writes through `getChannelData` into the
buffer it was passed and returns that same buffer; this function gives
the final contents of that (mutated) buffer object. -/
def applyFades (b : AudioBuf) : AudioBuf :=
  { b with chans := b.chans.map (fadeChannel (fadeLengthOf b.sampleRate)) }

/-- `mixedData[i] += channelData[i] * volume` for every `i` within the
source channel (`acc` is at least as long as the source in every call
the mixer makes; a longer source would fall off the end of the
composite, modelled by truncation). -/
def addScaled : List ℚ → List ℚ → ℚ → List ℚ
  | dst, [], _ => dst
  | [], _ :: _, _ => []
  | d :: ds, s :: ss, v => (d + s * v) :: addScaled ds ss v

/-- The `forEach((layer, layerIndex) => ...)` of `mixLayers`, one
composite channel at a time: every non-muted layer adds its channel
`min(c, layer.numberOfChannels - 1)` scaled by the layer's volume into
the accumulator. -/
def mixChannelGo (vols : List ℚ) (muted : List Bool) (c : ℕ) :
    ℕ → List AudioBuf → List ℚ → List ℚ
  | _, [], acc => acc
  | li, layer :: rest, acc =>
    mixChannelGo vols muted c (li + 1) rest
      (if muted.getD li false then acc
       else addScaled acc (layer.getChannelData (min c (layer.numberOfChannels - 1)))
         (vols.getD li 0))

/-- One composite channel of `mixLayers`, starting from the
zero-initialised accumulator. -/
def mixChannel (layers : List AudioBuf) (vols : List ℚ) (muted : List Bool)
    (c : ℕ) (init : List ℚ) : List ℚ :=
  mixChannelGo vols muted c 0 layers init

/-- `mixLayers` (part_001): `null` for no layers, the sole layer's
buffer object itself for one layer (volume and mute ignored), otherwise
a freshly allocated zero-filled `(maxChannels, maxLength)` buffer at
the audio context's sample rate into which every non-muted layer is
accumulated. -/
def mixLayers (ctxSampleRate : ℕ) (layers : List AudioBuf) (vols : List ℚ)
    (muted : List Bool) : Option AudioBuf :=
  if layers.length = 0 then none
  else if layers.length = 1 then layers.head?
  else
    let maxLength := layers.foldl (fun m l => max m l.frames) 0
    let maxChannels := layers.foldl (fun m l => max m l.numberOfChannels) 1
    some { sampleRate := ctxSampleRate,
           chans := (List.range maxChannels).map (fun c =>
             mixChannel layers vols muted c (List.replicate maxLength 0)) }

/-- The app's audio context sample rate (`new AudioContext({sampleRate: 44100})`). -/
def ctxRate : ℕ := 44100

/-- A history snapshot: `{layers: [...this.layers], layerVolumes: [...],
layerMuted: [...]}` (buffers reference-shared, arrays value-copied). -/
structure Snapshot where
  layers : List AudioBuf
  layerVolumes : List ℚ
  layerMuted : List Bool
deriving DecidableEq

/-- The composite-relevant state of `AudioLooperApp`. -/
structure AppState where
  layers : List AudioBuf
  layerVolumes : List ℚ
  layerMuted : List Bool
  undoStack : List Snapshot
  redoStack : List Snapshot
  loopAudioBuffer : Option AudioBuf
deriving DecidableEq

/-- The snapshot of the current state taken by `saveStateToUndo` /
`saveStateToRedo`. -/
def snapshotOf (s : AppState) : Snapshot :=
  { layers := s.layers, layerVolumes := s.layerVolumes, layerMuted := s.layerMuted }

/-- `saveStateToUndo`: push a snapshot (at the array's end); if the
stack then holds more than 10 entries, `shift()` discards the oldest
(front) entry. -/
def saveStateToUndo (s : AppState) : AppState :=
  let st := s.undoStack ++ [snapshotOf s]
  { s with undoStack := if 10 < st.length then st.drop 1 else st }

/-- `saveStateToRedo`: the same bounded push onto the redo stack. -/
def saveStateToRedo (s : AppState) : AppState :=
  let st := s.redoStack ++ [snapshotOf s]
  { s with redoStack := if 10 < st.length then st.drop 1 else st }

/-- The state mutation of the overdub completion callback
(`handleOverdub`, part_001 lines 605-620): snapshot to the undo stack,
append the faded new layer with volume 1 and unmuted, clear the redo
stack, and remix. -/
def handleOverdub (s : AppState) (recorded : AudioBuf) : AppState :=
  let s1 := saveStateToUndo s
  let layers := s1.layers ++ [applyFades recorded]
  let vols := s1.layerVolumes ++ [1]
  let muted := s1.layerMuted ++ [false]
  { s1 with
    layers := layers
    layerVolumes := vols
    layerMuted := muted
    redoStack := []
    loopAudioBuffer := mixLayers ctxRate layers vols muted }

/-- `handleUndo`: no-op (with a status message) on an empty undo stack;
otherwise push the current state onto the redo stack, pop the undo
stack, restore the popped snapshot and remix. -/
def handleUndo (s : AppState) : AppState :=
  if s.undoStack = [] then s
  else
    let s1 := saveStateToRedo s
    match s1.undoStack.getLast? with
    | none => s1
    | some p =>
      { s1 with
        undoStack := s1.undoStack.dropLast
        layers := p.layers
        layerVolumes := p.layerVolumes
        layerMuted := p.layerMuted
        loopAudioBuffer := mixLayers ctxRate p.layers p.layerVolumes p.layerMuted }

/-- Modelled from the spec: the repository's UI never pops the redo
stack (`redoStack` and `saveStateToRedo` exist in part_001, but no redo
handler does), and the specification defines `redo()` as the mirror of
`undo()` that the core must support; mirroring `handleUndo`: no-op on
an empty redo stack, otherwise push the current state onto the undo
stack, pop the redo stack, restore the popped snapshot and remix. -/
def handleRedo (s : AppState) : AppState :=
  if s.redoStack = [] then s
  else
    let s1 := saveStateToUndo s
    match s1.redoStack.getLast? with
    | none => s1
    | some p =>
      { s1 with
        redoStack := s1.redoStack.dropLast
        layers := p.layers
        layerVolumes := p.layerVolumes
        layerMuted := p.layerMuted
        loopAudioBuffer := mixLayers ctxRate p.layers p.layerVolumes p.layerMuted }

/-- `handleLayerVolumeChange`: set the layer's volume and remix; the
history stacks are not touched. -/
def handleLayerVolumeChange (s : AppState) (layerIndex : ℕ) (volume : ℚ) : AppState :=
  let vols := s.layerVolumes.set layerIndex volume
  { s with
    layerVolumes := vols
    loopAudioBuffer := mixLayers ctxRate s.layers vols s.layerMuted }

/-- `handleLayerMuteToggle`: negate the layer's mute flag and remix;
the history stacks are not touched. -/
def handleLayerMuteToggle (s : AppState) (layerIndex : ℕ) : AppState :=
  let muted := s.layerMuted.set layerIndex (! s.layerMuted.getD layerIndex false)
  { s with
    layerMuted := muted
    loopAudioBuffer := mixLayers ctxRate s.layers s.layerVolumes muted }

/-! ### C10: single-layer mixing returns the layer itself -/

/-- C10: with exactly one layer, `mixLayers` returns that layer's
buffer object itself; the layer's volume and mute flag are never
consulted, so a muted or attenuated single layer still yields its
original samples as the composite. -/
theorem mixLayers_single (ctxSampleRate : ℕ) (L : AudioBuf) (vols : List ℚ)
    (muted : List Bool) : mixLayers ctxSampleRate [L] vols muted = some L := by
  rw [mixLayers]
  norm_num

/-! ### C9: mixing is order-independent -/

theorem addScaled_nil_left (s : List ℚ) (v : ℚ) : addScaled [] s v = [] := by
  cases s <;> rfl

theorem addScaled_nil_right (dst : List ℚ) (v : ℚ) : addScaled dst [] v = dst := by
  cases dst <;> rfl

theorem addScaled_comm (dst : List ℚ) : ∀ (s1 s2 : List ℚ) (v1 v2 : ℚ),
    addScaled (addScaled dst s1 v1) s2 v2 = addScaled (addScaled dst s2 v2) s1 v1 := by
  induction dst with
  | nil => intro s1 s2 v1 v2; simp [addScaled_nil_left]
  | cons d ds ih =>
    intro s1 s2 v1 v2
    cases s1 with
    | nil => simp [addScaled_nil_right]
    | cons a as =>
      cases s2 with
      | nil => simp [addScaled_nil_right]
      | cons b bs =>
        show (d + a * v1 + b * v2) :: addScaled (addScaled ds as v1) bs v2
          = (d + b * v2 + a * v1) :: addScaled (addScaled ds bs v2) as v1
        rw [show d + a * v1 + b * v2 = d + b * v2 + a * v1 from by ring, ih as bs v1 v2]

theorem addScaled3_comm (init s1 s2 s3 : List ℚ) (v1 v2 v3 : ℚ) :
    addScaled (addScaled (addScaled init s1 v1) s2 v2) s3 v3
      = addScaled (addScaled (addScaled init s3 v3) s1 v1) s2 v2 := by
  rw [addScaled_comm (addScaled init s1 v1) s2 s3 v2 v3, addScaled_comm init s1 s3 v1 v3]

theorem mixChannel_perm3 (A B C : AudioBuf) (va vb vc : ℚ) (ma mb mc : Bool)
    (c : ℕ) (init : List ℚ) :
    mixChannel [A, B, C] [va, vb, vc] [ma, mb, mc] c init
      = mixChannel [C, A, B] [vc, va, vb] [mc, ma, mb] c init := by
  show mixChannelGo [va, vb, vc] [ma, mb, mc] c 0 [A, B, C] init
    = mixChannelGo [vc, va, vb] [mc, ma, mb] c 0 [C, A, B] init
  simp only [mixChannelGo, List.getD_cons_zero, List.getD_cons_succ]
  cases ma <;> cases mb <;> cases mc <;>
    simp only [Bool.false_eq_true, if_false, if_true] <;>
    first
      | rfl
      | apply addScaled_comm
      | apply addScaled3_comm

/-- C9: for fixed per-layer volumes and mute flags, mixing the layers
`[A, B, C]` produces the same composite buffer, sample for sample, as
mixing the rotated sequence `[C, A, B]` (each layer keeping its own
volume and mute flag); in the exact rational model the buffers are
equal outright. -/
theorem mixLayers_order_independent (ctxSampleRate : ℕ) (A B C : AudioBuf)
    (va vb vc : ℚ) (ma mb mc : Bool) :
    mixLayers ctxSampleRate [A, B, C] [va, vb, vc] [ma, mb, mc]
      = mixLayers ctxSampleRate [C, A, B] [vc, va, vb] [mc, ma, mb] := by
  rw [mixLayers, mixLayers]
  norm_num
  have h1 : A.frames ⊔ B.frames ⊔ C.frames = C.frames ⊔ A.frames ⊔ B.frames := by
    ac_rfl
  have h2 : 1 ⊔ A.numberOfChannels ⊔ B.numberOfChannels ⊔ C.numberOfChannels
      = 1 ⊔ C.numberOfChannels ⊔ A.numberOfChannels ⊔ B.numberOfChannels := by
    ac_rfl
  rw [h1, h2]
  congr 1
  funext c
  exact mixChannel_perm3 A B C va vb vc ma mb mc c _

/-! ### History stack lemmas -/

theorem cappedPush_getLast? (st : List Snapshot) (x : Snapshot) :
    (if 10 < (st ++ [x]).length then (st ++ [x]).drop 1 else st ++ [x]).getLast?
      = some x := by
  split
  · rename_i h
    simp only [List.length_append, List.length_cons, List.length_nil] at h
    rw [List.drop_append_of_le_length (by omega), List.getLast?_concat]
  · exact List.getLast?_concat _

theorem cappedPush_ne_nil (st : List Snapshot) (x : Snapshot) :
    (if 10 < (st ++ [x]).length then (st ++ [x]).drop 1 else st ++ [x]) ≠ [] := by
  split
  · rename_i h
    simp only [List.length_append, List.length_cons, List.length_nil] at h
    intro hc
    have hl := congrArg List.length hc
    simp only [List.length_drop, List.length_append, List.length_cons,
      List.length_nil] at hl
    omega
  · simp

/-! ### C3: which actions snapshot and clear the redo stack -/

/-- C3, amended: the overdub action snapshots the pre-mutation state
onto the undo stack and clears the redo stack, but the volume-change
and mute-toggle actions mutate the composition without touching either
history stack. -/
theorem history_snapshot_discipline (s : AppState) (b : AudioBuf) (i : ℕ) (v : ℚ) :
    (handleOverdub s b).redoStack = [] ∧
    (handleOverdub s b).undoStack.getLast? = some (snapshotOf s) ∧
    (handleLayerVolumeChange s i v).undoStack = s.undoStack ∧
    (handleLayerVolumeChange s i v).redoStack = s.redoStack ∧
    (handleLayerMuteToggle s i).undoStack = s.undoStack ∧
    (handleLayerMuteToggle s i).redoStack = s.redoStack :=
  ⟨rfl, cappedPush_getLast? s.undoStack (snapshotOf s), rfl, rfl, rfl, rfl⟩

/-- A concrete app state: one layer, an empty undo stack and a
non-empty redo stack. -/
def stateCE : AppState :=
  { layers := [{ sampleRate := 44100, chans := [[1]] }]
    layerVolumes := [1]
    layerMuted := [false]
    undoStack := []
    redoStack := [{ layers := [], layerVolumes := [], layerMuted := [] }]
    loopAudioBuffer := none }

/-- C3 as stated is false: at `stateCE`, changing layer 0's volume
pushes nothing onto the undo stack (it stays empty) and does not empty
the redo stack. -/
theorem volumeChange_no_snapshot_counterexample :
    ¬ ((handleLayerVolumeChange stateCE 0 (1 / 2)).undoStack.getLast?
        = some (snapshotOf stateCE) ∧
       (handleLayerVolumeChange stateCE 0 (1 / 2)).redoStack = []) := by
  decide

/-! ### C4: overdub, undo, redo round trip -/

theorem handleUndo_spec (s : AppState) (p : Snapshot) (hne : s.undoStack ≠ [])
    (hlast : s.undoStack.getLast? = some p) :
    handleUndo s =
      { s with
        undoStack := s.undoStack.dropLast
        redoStack := if 10 < (s.redoStack ++ [snapshotOf s]).length
                     then (s.redoStack ++ [snapshotOf s]).drop 1
                     else s.redoStack ++ [snapshotOf s]
        layers := p.layers
        layerVolumes := p.layerVolumes
        layerMuted := p.layerMuted
        loopAudioBuffer := mixLayers ctxRate p.layers p.layerVolumes p.layerMuted } := by
  rw [handleUndo, if_neg hne]
  have hlast2 : (saveStateToRedo s).undoStack.getLast? = some p := hlast
  simp only [hlast2]
  rfl

theorem handleRedo_spec (s : AppState) (p : Snapshot) (hne : s.redoStack ≠ [])
    (hlast : s.redoStack.getLast? = some p) :
    handleRedo s =
      { s with
        undoStack := if 10 < (s.undoStack ++ [snapshotOf s]).length
                     then (s.undoStack ++ [snapshotOf s]).drop 1
                     else s.undoStack ++ [snapshotOf s]
        redoStack := s.redoStack.dropLast
        layers := p.layers
        layerVolumes := p.layerVolumes
        layerMuted := p.layerMuted
        loopAudioBuffer := mixLayers ctxRate p.layers p.layerVolumes p.layerMuted } := by
  rw [handleRedo, if_neg hne]
  have hlast2 : (saveStateToUndo s).redoStack.getLast? = some p := hlast
  simp only [hlast2]
  rfl

/-- C4: after an overdub adds a layer, `handleUndo` restores the layer
sequence together with its volume and mute state to exactly the
pre-add state, and the (spec-modelled) `handleRedo` performed next
restores the post-add state again. -/
theorem overdub_undo_redo_roundtrip (s : AppState) (b : AudioBuf) :
    ((handleUndo (handleOverdub s b)).layers = s.layers ∧
     (handleUndo (handleOverdub s b)).layerVolumes = s.layerVolumes ∧
     (handleUndo (handleOverdub s b)).layerMuted = s.layerMuted) ∧
    ((handleRedo (handleUndo (handleOverdub s b))).layers = (handleOverdub s b).layers ∧
     (handleRedo (handleUndo (handleOverdub s b))).layerVolumes
        = (handleOverdub s b).layerVolumes ∧
     (handleRedo (handleUndo (handleOverdub s b))).layerMuted
        = (handleOverdub s b).layerMuted) := by
  have hne1 : (handleOverdub s b).undoStack ≠ [] :=
    cappedPush_ne_nil s.undoStack (snapshotOf s)
  have hlast1 : (handleOverdub s b).undoStack.getLast? = some (snapshotOf s) :=
    cappedPush_getLast? s.undoStack (snapshotOf s)
  have hu := handleUndo_spec (handleOverdub s b) (snapshotOf s) hne1 hlast1
  refine ⟨⟨?_, ?_, ?_⟩, ⟨?_, ?_, ?_⟩⟩ <;> rw [hu] <;> rfl

/-! ### C7: buffer mutation by `applyFades` -/

theorem rangeMap_getD (n : ℕ) (f : ℕ → ℚ) (i : ℕ) (h : i < n) :
    ((List.range n).map f).getD i 0 = f i := by
  rw [List.getD_eq_getElem _ _ (by simpa using h), List.getElem_map, List.getElem_range]

theorem fadeChannel_length (fl : ℕ) (data : List ℚ) :
    (fadeChannel fl data).length = data.length := by
  unfold fadeChannel
  simp

theorem fadeChannel_getD (fl : ℕ) (data : List ℚ) (j : ℕ) (h : j < data.length) :
    (fadeChannel fl data).getD j 0 =
      (if j < fl then data.getD j 0 * ((j : ℚ) / (fl : ℚ)) else data.getD j 0) *
        (if data.length - fl ≤ j then (((data.length - j : ℕ) : ℚ) / (fl : ℚ)) else 1) := by
  unfold fadeChannel
  simp only [List.length_map, List.length_range]
  rw [rangeMap_getD _ _ j h]
  split
  · rw [rangeMap_getD _ _ j h]
  · rw [rangeMap_getD _ _ j h, mul_one]

/-- C7, amended: `applyFades` keeps the buffer's sample rate, channel
count and channel lengths, and scales the samples of the buffer it was
handed *in place*: index `j` is multiplied by `j / fadeLength` inside
the fade-in region and by `(length - j) / fadeLength` inside the
fade-out region (both, sequentially, where the regions overlap), and is
left unchanged in the middle; the same (now mutated) buffer object is
returned, not a fresh copy. -/
theorem applyFades_inplace_scaling (b : AudioBuf) (c : ℕ) (hc : c < b.chans.length)
    (j : ℕ) (hj : j < (b.chans.getD c []).length) :
    (applyFades b).sampleRate = b.sampleRate ∧
    (applyFades b).chans.length = b.chans.length ∧
    ((applyFades b).chans.getD c []).length = (b.chans.getD c []).length ∧
    ((applyFades b).chans.getD c []).getD j 0 =
      (if j < fadeLengthOf b.sampleRate then
        (b.chans.getD c []).getD j 0 * ((j : ℚ) / (fadeLengthOf b.sampleRate : ℚ))
       else (b.chans.getD c []).getD j 0) *
        (if (b.chans.getD c []).length - fadeLengthOf b.sampleRate ≤ j then
          ((((b.chans.getD c []).length - j : ℕ) : ℚ) / (fadeLengthOf b.sampleRate : ℚ))
         else 1) := by
  have hch : (applyFades b).chans.getD c []
      = fadeChannel (fadeLengthOf b.sampleRate) (b.chans.getD c []) := by
    show (b.chans.map (fadeChannel (fadeLengthOf b.sampleRate))).getD c [] = _
    rw [List.getD_eq_getElem _ _ (by simpa using hc), List.getElem_map,
      ← List.getD_eq_getElem _ ([] : List ℚ) hc]
  refine ⟨rfl, ?_, ?_, ?_⟩
  · show (b.chans.map (fadeChannel (fadeLengthOf b.sampleRate))).length = _
    simp
  · rw [hch, fadeChannel_length]
  · rw [hch, fadeChannel_getD _ _ j hj]

/-- A concrete buffer for exercising `applyFades`: 11 samples at a
sample rate giving a 5-sample fade. -/
def fadeWitnessBuf : AudioBuf :=
  { sampleRate := 1000, chans := [[2, 2, 2, 2, 2, 3, 2, 2, 2, 2, 2]] }

theorem applyFades_inplace_scaling_witness :
    0 < fadeWitnessBuf.chans.length ∧
    5 < (fadeWitnessBuf.chans.getD 0 []).length ∧
    ((applyFades fadeWitnessBuf).sampleRate = fadeWitnessBuf.sampleRate ∧
    (applyFades fadeWitnessBuf).chans.length = fadeWitnessBuf.chans.length ∧
    ((applyFades fadeWitnessBuf).chans.getD 0 []).length
      = (fadeWitnessBuf.chans.getD 0 []).length ∧
    ((applyFades fadeWitnessBuf).chans.getD 0 []).getD 5 0 =
      (if 5 < fadeLengthOf fadeWitnessBuf.sampleRate then
        (fadeWitnessBuf.chans.getD 0 []).getD 5 0
          * ((5 : ℚ) / (fadeLengthOf fadeWitnessBuf.sampleRate : ℚ))
       else (fadeWitnessBuf.chans.getD 0 []).getD 5 0) *
        (if (fadeWitnessBuf.chans.getD 0 []).length - fadeLengthOf fadeWitnessBuf.sampleRate ≤ 5 then
          ((((fadeWitnessBuf.chans.getD 0 []).length - 5 : ℕ) : ℚ)
            / (fadeLengthOf fadeWitnessBuf.sampleRate : ℚ))
         else 1)) :=
  ⟨by decide, by decide,
    applyFades_inplace_scaling fadeWitnessBuf 0 (by decide) 5 (by decide)⟩

/-- C7 as stated is false: `applyFades` does not leave its input
buffer's samples unchanged — on a one-sample buffer the sample is
scaled to `0` inside the buffer object that was passed in (the function
returns that same object, not a fresh buffer). -/
theorem fadeLengthOf_1000 : fadeLengthOf 1000 = 5 := by
  have h : (5 : ℚ) / 1000 * (1000 : ℕ) = ((5 : ℤ) : ℚ) := by norm_num
  rw [fadeLengthOf, h, Int.floor_intCast]
  rfl

theorem applyFades_mutates_counterexample :
    applyFades { sampleRate := 1000, chans := [[1]] }
      ≠ { sampleRate := 1000, chans := [[1]] } := by
  have hfl : applyFades { sampleRate := 1000, chans := [[1]] }
      = { sampleRate := 1000, chans := [[0]] } := by
    show ({ sampleRate := 1000,
            chans := [[1]].map (fadeChannel (fadeLengthOf 1000)) } : AudioBuf) = _
    rw [fadeLengthOf_1000]
    unfold fadeChannel
    norm_num [List.range_succ]
  rw [hfl]
  intro h
  have h2 := congrArg AudioBuf.chans h
  simp at h2

/-! ### Spectral frames and chromagram (audio-analyzer.js, analyzer-worker.js) -/

/-- The `fft` helper (a direct DFT): `spectrum[k] = sqrt(re^2 + im^2)`
over all `n` bins, with `angle = -2 * Math.PI * k * i / n`. -/
def fftJS (M : JSMath) (signal : List ℚ) : List ℚ :=
  let n := signal.length
  (List.range n).map (fun (k : ℕ) =>
    let re := ((List.range n).map (fun (i : ℕ) =>
      signal.getD i 0 * M.cos (-2 * M.pi * (k : ℚ) * (i : ℚ) / (n : ℚ)))).sum
    let im := ((List.range n).map (fun (i : ℕ) =>
      signal.getD i 0 * M.sin (-2 * M.pi * (k : ℚ) * (i : ℚ) / (n : ℚ)))).sum
    M.sqrt (re * re + im * im))

/-- The worker's `fftFast` helper: only the first `floor(n / 2)` bins,
with `angle = angleStep * i` and `angleStep = -2 * Math.PI * k / n`. -/
def fftFastJS (M : JSMath) (signal : List ℚ) : List ℚ :=
  let n := signal.length
  (List.range (n / 2)).map (fun (k : ℕ) =>
    let re := ((List.range n).map (fun (i : ℕ) =>
      signal.getD i 0 * M.cos (-2 * M.pi * (k : ℚ) / (n : ℚ) * (i : ℚ)))).sum
    let im := ((List.range n).map (fun (i : ℕ) =>
      signal.getD i 0 * M.sin (-2 * M.pi * (k : ℚ) / (n : ℚ) * (i : ℚ)))).sum
    M.sqrt (re * re + im * im))

/-- `chromagram[pc] += x` (array write at a known-valid index). -/
def addAt (v : List ℚ) (i : ℕ) (x : ℚ) : List ℚ := v.set i (v.getD i 0 + x)

/-- The bin loop bounds `for (bin = 1; bin < spectrum.length / 2; bin++)`,
where the JavaScript division is exact: an integer `bin` satisfies
`bin < len / 2` iff `bin < ⌈len / 2⌉`. -/
def chromaBins (specLen : ℕ) : List ℕ := (List.range ((specLen + 1) / 2)).drop 1

/-- The shared per-frame accumulation: for every bin whose centre
frequency lies in `[80, 2000]` Hz, map frequency to a pitch class via
`pitch = 12 * log2(freq / 440) + 57`, `pitchClass = Math.round(pitch) % 12`
(JavaScript `%` keeps the dividend's sign, `Int.tmod`), and accumulate
the bin's magnitude when `0 ≤ pitchClass < 12`. -/
def accumBins (M : JSMath) (spectrum : List ℚ) (sampleRate fftSize : ℕ)
    (chrom : List ℚ) : List ℚ :=
  (chromaBins spectrum.length).foldl (fun chrom (bin : ℕ) =>
    let freq := (bin : ℚ) * (sampleRate : ℚ) / (fftSize : ℚ)
    if freq < 80 ∨ 2000 < freq then chrom
    else
      let pitch := 12 * M.log2 (freq / 440) + 57
      let pitchClass := Int.tmod (jsRound pitch) 12
      if 0 ≤ pitchClass ∧ pitchClass < 12 then
        addAt chrom pitchClass.toNat (spectrum.getD bin 0)
      else chrom) chrom

/-- The frame loop of `calculateChromagram` (audio-analyzer.js):
`fftSize = 4096`, hop `fftSize / 2 = 2048`, frames while
`i < audioData.length - fftSize`. -/
def chromAccA (M : JSMath) (data : List ℚ) (sampleRate : ℕ) : List ℚ :=
  (List.range ((data.length - 4096 + 2047) / 2048)).foldl
    (fun chrom f =>
      accumBins M (fftJS M ((data.drop (2048 * f)).take 4096)) sampleRate 4096 chrom)
    (List.replicate 12 0)

/-- `calculateChromagram` (audio-analyzer.js): accumulate, then
normalise by the maximum *without* a zero guard —
`chromagram.map(x => x / max)`, which on an all-zero accumulator is
`0 / 0 = NaN` for every slot (`jsDiv`, hence `Option ℚ`). -/
def calculateChromagram (M : JSMath) (data : List ℚ) (sampleRate : ℕ) :
    List (Option ℚ) :=
  let acc := chromAccA M data sampleRate
  let m := listMax acc
  acc.map (fun x => jsDiv x m)

/-- The frame loop of the worker's `calculateChromagramFast`:
`fftSize = 2048`, hop `fftSize` (no overlap), frames while
`i < maxSamples - fftSize` with `maxSamples = min(length, 2 * sampleRate)`;
each chunk is still sliced from the full input array. -/
def chromAccFast (M : JSMath) (data : List ℚ) (sampleRate : ℕ) : List ℚ :=
  (List.range ((min data.length (2 * sampleRate) - 2048 + 2047) / 2048)).foldl
    (fun chrom f =>
      accumBins M (fftFastJS M ((data.drop (2048 * f)).take 2048)) sampleRate 2048 chrom)
    (List.replicate 12 0)

/-- The worker's `calculateChromagramFast`: accumulate, then
`max > 0 ? chromagram.map(x => x / max) : chromagram` — the zero guard
leaves a silent accumulator untouched. -/
def calculateChromagramFast (M : JSMath) (data : List ℚ) (sampleRate : ℕ) :
    List ℚ :=
  let acc := chromAccFast M data sampleRate
  let m := listMax acc
  if 0 < m then acc.map (fun x => x / m) else acc

/-! ### `listMax` is the maximum of a non-empty list -/

theorem foldl_max_le_init (t : List ℚ) (a : ℚ) : a ≤ t.foldl max a := by
  induction t generalizing a with
  | nil => exact le_refl a
  | cons b t ih => exact le_trans (le_max_left a b) (ih (max a b))

theorem le_foldl_max (t : List ℚ) (a x : ℚ) (hx : x ∈ t) : x ≤ t.foldl max a := by
  induction t generalizing a with
  | nil => cases hx
  | cons b t ih =>
    rcases List.mem_cons.mp hx with rfl | hm
    · exact le_trans (le_max_right a x) (foldl_max_le_init t (max a x))
    · exact ih (max a b) hm

theorem foldl_max_cases (t : List ℚ) (a : ℚ) :
    t.foldl max a = a ∨ t.foldl max a ∈ t := by
  induction t generalizing a with
  | nil => exact Or.inl rfl
  | cons b t ih =>
    rcases ih (max a b) with h | h
    · rcases max_choice a b with h' | h'
      · exact Or.inl (by rw [List.foldl_cons, h, h'])
      · exact Or.inr (by rw [List.foldl_cons, h, h']; exact List.mem_cons_self b t)
    · exact Or.inr (List.mem_cons_of_mem b h)

theorem le_listMax (l : List ℚ) (x : ℚ) (hx : x ∈ l) : x ≤ listMax l := by
  cases l with
  | nil => cases hx
  | cons h t =>
    rcases List.mem_cons.mp hx with rfl | hm
    · exact foldl_max_le_init t x
    · exact le_foldl_max t h x hm

theorem listMax_mem (l : List ℚ) (hne : l ≠ []) : listMax l ∈ l := by
  cases l with
  | nil => exact absurd rfl hne
  | cons h t =>
    show List.foldl max h t ∈ h :: t
    rcases foldl_max_cases t h with h' | h'
    · rw [h']
      exact List.mem_cons_self h t
    · exact List.mem_cons_of_mem h h'

/-! ### C2: chromagram normalisation -/

theorem foldl_invariant {α β : Type} (P : β → Prop) (f : β → α → β) (l : List α)
    (init : β) (h0 : P init) (hstep : ∀ b a, P b → P (f b a)) : P (l.foldl f init) := by
  induction l generalizing init with
  | nil => exact h0
  | cons a t ih => exact ih (f init a) (hstep init a h0)

theorem getD_nonneg_of_mem_nonneg (l : List ℚ) (i : ℕ)
    (h : ∀ x ∈ l, 0 ≤ x) : 0 ≤ l.getD i 0 := by
  by_cases hi : i < l.length
  · rw [List.getD_eq_getElem _ _ hi]
    exact h _ (List.getElem_mem hi)
  · rw [List.getD_eq_default _ _ (by omega)]

theorem addAt_preserve (chrom : List ℚ) (i : ℕ) (x : ℚ) (hx : 0 ≤ x)
    (hlen : chrom.length = 12) (hnn : ∀ y ∈ chrom, 0 ≤ y) :
    (addAt chrom i x).length = 12 ∧ ∀ y ∈ addAt chrom i x, 0 ≤ y := by
  refine ⟨by simp [addAt, hlen], fun y hy => ?_⟩
  rcases List.mem_or_eq_of_mem_set hy with h | rfl
  · exact hnn y h
  · exact add_nonneg (getD_nonneg_of_mem_nonneg chrom i hnn) hx

theorem fftFastJS_getD_nonneg (M : JSMath) (hsqrt : ∀ x, 0 ≤ x → 0 ≤ M.sqrt x)
    (signal : List ℚ) (bin : ℕ) : 0 ≤ (fftFastJS M signal).getD bin 0 := by
  by_cases h : bin < (fftFastJS M signal).length
  · rw [List.getD_eq_getElem _ _ h]
    unfold fftFastJS at h ⊢
    simp only [List.length_map, List.length_range] at h
    rw [List.getElem_map, List.getElem_range]
    exact hsqrt _ (add_nonneg (mul_self_nonneg _) (mul_self_nonneg _))
  · rw [List.getD_eq_default _ _ (by omega)]

theorem accumBins_preserve (M : JSMath) (spectrum : List ℚ) (sampleRate fftSize : ℕ)
    (chrom : List ℚ) (hspec : ∀ bin, 0 ≤ spectrum.getD bin 0)
    (hlen : chrom.length = 12) (hnn : ∀ y ∈ chrom, 0 ≤ y) :
    (accumBins M spectrum sampleRate fftSize chrom).length = 12 ∧
      ∀ y ∈ accumBins M spectrum sampleRate fftSize chrom, 0 ≤ y := by
  unfold accumBins
  refine foldl_invariant (fun c => c.length = 12 ∧ ∀ y ∈ c, 0 ≤ y) _ _ _ ⟨hlen, hnn⟩ ?_
  intro c bin hc
  dsimp only
  split
  · exact hc
  · split
    · exact addAt_preserve c _ _ (hspec bin) hc.1 hc.2
    · exact hc

theorem chromAccFast_basic (M : JSMath) (data : List ℚ) (sampleRate : ℕ)
    (hsqrt : ∀ x, 0 ≤ x → 0 ≤ M.sqrt x) :
    (chromAccFast M data sampleRate).length = 12 ∧
      ∀ y ∈ chromAccFast M data sampleRate, 0 ≤ y := by
  have h0 : (List.replicate 12 (0 : ℚ)).length = 12 ∧
      ∀ y ∈ List.replicate 12 (0 : ℚ), 0 ≤ y := by
    refine ⟨by simp, fun y hy => ?_⟩
    exact le_of_eq (List.eq_of_mem_replicate hy).symm
  unfold chromAccFast
  refine foldl_invariant (fun (c : List ℚ) => c.length = 12 ∧ ∀ y ∈ c, 0 ≤ y) _ _ _ h0 ?_
  intro c f hc
  exact accumBins_preserve M _ sampleRate 2048 c
    (fftFastJS_getD_nonneg M hsqrt _) hc.1 hc.2

/-- C2, amended: the worker's `calculateChromagramFast` satisfies the
claimed contract — 12 entries, all non-negative (given that `Math.sqrt`
of a non-negative argument is non-negative), and either the maximum
entry is exactly 1 or the accumulator was entirely silent and is left
all zeros with no division performed.  The `AudioAnalyzer`'s
`calculateChromagram` lacks the zero guard and instead produces a
vector of `NaN`s on silent input (see the counterexample). -/
theorem chromagramFast_normalized (M : JSMath) (data : List ℚ) (sampleRate : ℕ)
    (hsqrt : ∀ x, 0 ≤ x → 0 ≤ M.sqrt x) :
    (calculateChromagramFast M data sampleRate).length = 12 ∧
    (∀ x ∈ calculateChromagramFast M data sampleRate, 0 ≤ x) ∧
    (listMax (calculateChromagramFast M data sampleRate) = 1 ∨
      ∀ x ∈ calculateChromagramFast M data sampleRate, x = 0) := by
  obtain ⟨hlen, hnn⟩ := chromAccFast_basic M data sampleRate hsqrt
  have hne : chromAccFast M data sampleRate ≠ [] := by
    intro hc
    rw [hc] at hlen
    simp at hlen
  unfold calculateChromagramFast
  by_cases hm : 0 < listMax (chromAccFast M data sampleRate)
  · rw [if_pos hm]
    have hmem := listMax_mem _ hne
    refine ⟨by simp [hlen], fun x hx => ?_, Or.inl ?_⟩
    · obtain ⟨y, hy, rfl⟩ := List.mem_map.mp hx
      exact div_nonneg (hnn y hy) (le_of_lt hm)
    · have h1mem : (1 : ℚ) ∈ (chromAccFast M data sampleRate).map
          (fun x => x / listMax (chromAccFast M data sampleRate)) := by
        refine List.mem_map.mpr ⟨listMax (chromAccFast M data sampleRate), hmem, ?_⟩
        exact div_self (ne_of_gt hm)
      have hle1 : ∀ x ∈ (chromAccFast M data sampleRate).map
          (fun x => x / listMax (chromAccFast M data sampleRate)), x ≤ 1 := by
        intro x hx
        obtain ⟨y, hy, rfl⟩ := List.mem_map.mp hx
        exact (div_le_one hm).mpr (le_listMax _ y hy)
      have hmapne : (chromAccFast M data sampleRate).map
          (fun x => x / listMax (chromAccFast M data sampleRate)) ≠ [] := by
        simpa using hne
      exact le_antisymm (hle1 _ (listMax_mem _ hmapne)) (le_listMax _ 1 h1mem)
  · rw [if_neg hm]
    refine ⟨hlen, hnn, Or.inr fun x hx => ?_⟩
    exact le_antisymm (le_trans (le_listMax _ x hx) (not_lt.mp hm)) (hnn x hx)

theorem chromagramFast_normalized_witness :
    (∀ x : ℚ, 0 ≤ x → 0 ≤ mathZero.sqrt x) ∧
    ((calculateChromagramFast mathZero [] 44100).length = 12 ∧
    (∀ x ∈ calculateChromagramFast mathZero [] 44100, 0 ≤ x) ∧
    (listMax (calculateChromagramFast mathZero [] 44100) = 1 ∨
      ∀ x ∈ calculateChromagramFast mathZero [] 44100, x = 0)) :=
  ⟨fun _ _ => le_refl 0,
    chromagramFast_normalized mathZero [] 44100 (fun _ _ => le_refl 0)⟩

/-- C2 as stated is false for `AudioAnalyzer.calculateChromagram`: on a
silent (here: empty) input the accumulator stays all zero, the spec
demands the vector be left as all zeros with no division by zero, but
the code divides every slot by the zero maximum, yielding twelve `NaN`s
(`none`), not zeros. -/
theorem chromagram_div_by_zero_counterexample :
    calculateChromagram mathZero [] 44100 ≠ List.replicate 12 (some (0 : ℚ)) ∧
    calculateChromagram mathZero [] 44100 = List.replicate 12 none := by
  have hacc : chromAccA mathZero [] 44100 = List.replicate 12 0 := rfl
  have hmax : listMax (List.replicate 12 (0 : ℚ)) = 0 :=
    List.eq_of_mem_replicate (listMax_mem _ (by simp))
  have h : calculateChromagram mathZero [] 44100 = List.replicate 12 none := by
    show (chromAccA mathZero [] 44100).map
      (fun x => jsDiv x (listMax (chromAccA mathZero [] 44100))) = _
    rw [hacc, hmax]
    rfl
  refine ⟨?_, h⟩
  rw [h]
  decide

/-! ### C8: chord identification from a chromagram -/

/-- The chromatic note-name table shared by both `identifyChord`
implementations. -/
def noteNames : List String :=
  ["C", "C#", "D", "D#", "E", "F"] ++ ["F#", "G", "G#", "A", "A#", "B"]

/-- Out-of-range default for note lookups (never reached: the root is
an index of a 12-element chromagram). -/
def emptyLabel : String := ""

/-- `indexed.sort((a, b) => b.val - a.val)`: a stable sort placing
higher values first (ECMAScript sorts are stable and the comparator is
consulted as a `≤`-style test). -/
def jsSortDesc (l : List (ℚ × ℕ)) : List (ℚ × ℕ) :=
  l.mergeSort (fun a b => decide (b.1 ≤ a.1))

/-- `top3.sort((a, b) => a - b)`: ascending sort of pitch-class
indices. -/
def jsSortAsc (l : List ℕ) : List ℕ :=
  l.mergeSort (fun a b => decide (a ≤ b))

/-- `identifyChord` (identical in audio-analyzer.js and
analyzer-worker.js): pair every chromagram value with its pitch class,
sort by value descending, keep the three strongest pitch classes, sort
them ascending, take the lowest as candidate root, form the interval
set relative to the root, and match the ordered triad/seventh
templates, defaulting to the bare root name. -/
def identifyChord (chromagram : List ℚ) : String :=
  let indexed := chromagram.zip (List.range chromagram.length)
  let top3 := jsSortAsc (((jsSortDesc indexed).take 3).map Prod.snd)
  let root := top3.headD 0
  let intervals := top3.map (fun (pitch : ℕ) => ((pitch : ℤ) - (root : ℤ) + 12) % 12)
  if 0 ∈ intervals ∧ 4 ∈ intervals ∧ 7 ∈ intervals then
    noteNames.getD root emptyLabel
  else if 0 ∈ intervals ∧ 3 ∈ intervals ∧ 7 ∈ intervals then
    noteNames.getD root emptyLabel ++ "m"
  else if 0 ∈ intervals ∧ 4 ∈ intervals ∧ 10 ∈ intervals then
    noteNames.getD root emptyLabel ++ "7"
  else if 0 ∈ intervals ∧ 4 ∈ intervals ∧ 11 ∈ intervals then
    noteNames.getD root emptyLabel ++ "maj7"
  else if 0 ∈ intervals ∧ 3 ∈ intervals ∧ 10 ∈ intervals then
    noteNames.getD root emptyLabel ++ "m7"
  else
    noteNames.getD root emptyLabel

theorem jsSortDesc_perm (l : List (ℚ × ℕ)) : (jsSortDesc l).Perm l :=
  List.mergeSort_perm l _

theorem jsSortDesc_pairwise (l : List (ℚ × ℕ)) :
    (jsSortDesc l).Pairwise (fun x y => y.1 ≤ x.1) := by
  have h := @List.sorted_mergeSort (ℚ × ℕ)
    (fun a b => decide (b.1 ≤ a.1))
    (fun a b c h1 h2 => by
      simp only [decide_eq_true_eq] at h1 h2 ⊢
      exact le_trans h2 h1)
    (fun a b => by
      simpa using le_total b.1 a.1)
    l
  exact h.imp (fun hab => of_decide_eq_true hab)

/-- If exactly three entries of `l` carry positive values, every
positive entry lies in the three-element list `pos`, and each entry of
`pos` occurs exactly once in `l`, then the first three entries of the
descending sort are a permutation of `pos`. -/
theorem jsSortDesc_take3_perm (l pos : List (ℚ × ℕ)) (hlen : l.length = 12)
    (hnodup : l.Nodup)
    (hcount : l.countP (fun p => decide (0 < p.1)) = 3)
    (hmem : ∀ x ∈ l, 0 < x.1 → x ∈ pos)
    (hposlen : pos.length = 3) :
    ((jsSortDesc l).take 3).Perm pos := by
  have hperm := jsSortDesc_perm l
  have hslen : (jsSortDesc l).length = 12 := hperm.length_eq.trans hlen
  have htlen : ((jsSortDesc l).take 3).length = 3 := by
    rw [List.length_take, hslen]
    decide
  have hcountS : (jsSortDesc l).countP (fun p => decide (0 < p.1)) = 3 :=
    (hperm.countP_eq _).trans hcount
  have hsplit := List.take_append_drop 3 (jsSortDesc l)
  have hpairTD : ∀ x ∈ (jsSortDesc l).take 3, ∀ y ∈ (jsSortDesc l).drop 3, y.1 ≤ x.1 := by
    have hpw := jsSortDesc_pairwise l
    rw [← hsplit] at hpw
    exact (List.pairwise_append.mp hpw).2.2
  have hposT : ∀ x ∈ (jsSortDesc l).take 3, 0 < x.1 := by
    intro x hx
    by_contra hnpos
    have hTne : ((jsSortDesc l).take 3).countP (fun p => decide (0 < p.1)) ≠ 3 := by
      intro hEq
      have hAll := List.countP_eq_length.mp (hEq.trans htlen.symm)
      exact hnpos (of_decide_eq_true (hAll x hx))
    have hTle : ((jsSortDesc l).take 3).countP (fun p => decide (0 < p.1)) ≤ 3 :=
      le_trans (List.countP_le_length _) (le_of_eq htlen)
    have hsum : ((jsSortDesc l).take 3).countP (fun p => decide (0 < p.1)) +
        ((jsSortDesc l).drop 3).countP (fun p => decide (0 < p.1)) = 3 := by
      rw [← List.countP_append, hsplit]
      exact hcountS
    have hDpos : 0 < ((jsSortDesc l).drop 3).countP (fun p => decide (0 < p.1)) := by
      omega
    obtain ⟨y, hyD, hy⟩ := List.countP_pos_iff.mp hDpos
    have hyx := hpairTD x hx y hyD
    exact hnpos (lt_of_lt_of_le (of_decide_eq_true hy) hyx)
  have hsubset : (jsSortDesc l).take 3 ⊆ pos := by
    intro x hx
    have hxl : x ∈ l := hperm.mem_iff.mp (List.take_subset 3 _ hx)
    exact hmem x hxl (hposT x hx)
  have hnodupT : ((jsSortDesc l).take 3).Nodup :=
    (List.take_sublist 3 _).nodup (hperm.nodup_iff.mpr hnodup)
  exact (hnodupT.subperm hsubset).perm_of_length_le (by omega)

theorem jsSortAsc_eq_of_perm (l : List ℕ) (target : List ℕ)
    (hp : l.Perm target) (hs : target.Sorted (· ≤ ·)) : jsSortAsc l = target := by
  refine List.eq_of_perm_of_sorted ((List.mergeSort_perm l _).trans hp) ?_ hs
  have h := @List.sorted_mergeSort ℕ
    (fun a b => decide (a ≤ b))
    (fun a b c h1 h2 => by
      simp only [decide_eq_true_eq] at h1 h2 ⊢
      omega)
    (fun a b => by
      simpa using le_total a b)
    l
  exact h.imp (fun hab => of_decide_eq_true hab)

/-- C8: for any chromagram whose energy sits exactly on pitch classes
`{0, 4, 7}` (arbitrary positive values, all other classes zero) the
chord identifier returns `"C"`, and for energy exactly on `{0, 3, 7}`
it returns `"Cm"`: the three strongest classes are kept, the lowest
after ascending sort is the root, and the interval templates match the
major and minor triads respectively. -/
theorem identifyChord_major_minor (a b c : ℚ) (ha : 0 < a) (hb : 0 < b) (hc : 0 < c) :
    identifyChord [a, 0, 0, 0, b, 0, 0, c, 0, 0, 0, 0] = "C" ∧
    identifyChord [a, 0, 0, b, 0, 0, 0, c, 0, 0, 0, 0] = "Cm" := by
  constructor
  · have hzip : ([a, 0, 0, 0, b, 0, 0, c, 0, 0, 0, 0] : List ℚ).zip
        (List.range ([a, 0, 0, 0, b, 0, 0, c, 0, 0, 0, 0] : List ℚ).length)
        = [(a, 0), (0, 1), (0, 2), (0, 3), (b, 4), (0, 5), (0, 6), (c, 7),
           (0, 8), (0, 9), (0, 10), (0, 11)] := rfl
    have hperm3 := jsSortDesc_take3_perm
      [(a, 0), (0, 1), (0, 2), (0, 3), (b, 4), (0, 5), (0, 6), (c, 7),
       (0, 8), (0, 9), (0, 10), (0, 11)]
      [(a, 0), (b, 4), (c, 7)] rfl
      (by simp [List.nodup_cons, Prod.mk.injEq])
      (by simp [List.countP_cons, ha, hb, hc])
      (by
        intro x hx hxpos
        simp only [List.mem_cons, List.not_mem_nil, or_false] at hx
        rcases hx with rfl | rfl | rfl | rfl | rfl | rfl | rfl | rfl | rfl | rfl | rfl | rfl <;>
          simp_all)
      rfl
    have htop3 : jsSortAsc ((((jsSortDesc
        [(a, 0), (0, 1), (0, 2), (0, 3), (b, 4), (0, 5), (0, 6), (c, 7),
         (0, 8), (0, 9), (0, 10), (0, 11)]).take 3).map Prod.snd)) = [0, 4, 7] := by
      refine jsSortAsc_eq_of_perm _ _ ?_ (by decide)
      have := hperm3.map Prod.snd
      simpa using this
    show identifyChord [a, 0, 0, 0, b, 0, 0, c, 0, 0, 0, 0] = "C"
    rw [identifyChord]
    rw [hzip, htop3]
    decide
  · have hzip : ([a, 0, 0, b, 0, 0, 0, c, 0, 0, 0, 0] : List ℚ).zip
        (List.range ([a, 0, 0, b, 0, 0, 0, c, 0, 0, 0, 0] : List ℚ).length)
        = [(a, 0), (0, 1), (0, 2), (b, 3), (0, 4), (0, 5), (0, 6), (c, 7),
           (0, 8), (0, 9), (0, 10), (0, 11)] := rfl
    have hperm3 := jsSortDesc_take3_perm
      [(a, 0), (0, 1), (0, 2), (b, 3), (0, 4), (0, 5), (0, 6), (c, 7),
       (0, 8), (0, 9), (0, 10), (0, 11)]
      [(a, 0), (b, 3), (c, 7)] rfl
      (by simp [List.nodup_cons, Prod.mk.injEq])
      (by simp [List.countP_cons, ha, hb, hc])
      (by
        intro x hx hxpos
        simp only [List.mem_cons, List.not_mem_nil, or_false] at hx
        rcases hx with rfl | rfl | rfl | rfl | rfl | rfl | rfl | rfl | rfl | rfl | rfl | rfl <;>
          simp_all)
      rfl
    have htop3 : jsSortAsc ((((jsSortDesc
        [(a, 0), (0, 1), (0, 2), (b, 3), (0, 4), (0, 5), (0, 6), (c, 7),
         (0, 8), (0, 9), (0, 10), (0, 11)]).take 3).map Prod.snd)) = [0, 3, 7] := by
      refine jsSortAsc_eq_of_perm _ _ ?_ (by decide)
      have := hperm3.map Prod.snd
      simpa using this
    show identifyChord [a, 0, 0, b, 0, 0, 0, c, 0, 0, 0, 0] = "Cm"
    rw [identifyChord]
    rw [hzip, htop3]
    decide

theorem identifyChord_major_minor_witness :
    (0 : ℚ) < 1 ∧
    (identifyChord [1, 0, 0, 0, 1, 0, 0, 1, 0, 0, 0, 0] = "C" ∧
     identifyChord [1, 0, 0, 1, 0, 0, 0, 1, 0, 0, 0, 0] = "Cm") :=
  ⟨by norm_num, identifyChord_major_minor 1 1 1 (by norm_num) (by norm_num) (by norm_num)⟩

/-! ### C1: worker chord detection vs the synchronous fallback -/

/-- The worker's natural-note table (7 naturals, no sharps). -/
def simpleNotes : List String := ["C", "D", "E", "F", "G", "A", "B"]

/-- The worker's chord-type suffix table. -/
def chordTypes : List String := ["", "m", "7"]

/-- When `peaks` is empty (window of at most 100 samples) the
JavaScript computes `0 / 0 = NaN`, indexes `notes[NaN] = undefined`,
and returns the string `"undefined"` (`undefined + ''`). -/
def undefinedLabel : String := "undefined"

/-- The worker's `detectChordSimple`: mean absolute energy per
100-sample block (`for i = 0; i < length - step; i += step`), then a
heuristic mapping of the count of above-average blocks to one of 21
chord names. -/
def detectChordSimple (window : List ℚ) (sampleRate : ℕ) : String :=
  let step := 100
  let numPeaks := (window.length - step + (step - 1)) / step
  let peaks := (List.range numPeaks).map (fun (t : ℕ) =>
    (((List.range step).map (fun (j : ℕ) => |window.getD (step * t + j) 0|)).sum)
      / (step : ℚ))
  if peaks = [] then undefinedLabel
  else
    let avgEnergy := peaks.sum / (peaks.length : ℚ)
    let peakCount := peaks.countP (fun p => decide (avgEnergy * (3 / 2) < p))
    let noteIndex := (peakCount * 7) / peaks.length % 7
    let typeIndex := peakCount % 3
    simpleNotes.getD noteIndex emptyLabel ++ chordTypes.getD typeIndex emptyLabel

/-- The worker's `detectChords` (analyzer-worker.js): 1-second
non-overlapping windows, `break` on a trailing window shorter than half
the nominal size, adjacent-duplicate collapsing, and a single default
`C` event at time 0 when no event was produced.  The event is modelled
by its `timeInSeconds` and chord label.  The iteration count
`⌈length / windowSize⌉` reproduces the `for` loop for a positive
sample rate (for `sampleRate = 0` the JavaScript loop would not
terminate; the model returns the default event list). -/
def detectChordsW (data : List ℚ) (sampleRate : ℕ) : List (ℚ × String) :=
  let windowSize := sampleRate
  let n := if windowSize = 0 then 0 else (data.length + windowSize - 1) / windowSize
  let result := (List.range n).foldl
    (fun (st : Bool × List (ℚ × String)) (k : ℕ) =>
      if st.1 then st
      else
        let window := (data.drop (windowSize * k)).take windowSize
        if (window.length : ℚ) < (windowSize : ℚ) * (1 / 2) then (true, st.2)
        else
          let chord := detectChordSimple window sampleRate
          let timeInSeconds := ((windowSize * k : ℕ) : ℚ) / (sampleRate : ℚ)
          if st.2.getLast?.map Prod.snd = some chord then (false, st.2)
          else (false, st.2 ++ [(timeInSeconds, chord)]))
    (false, [])
  if result.2 = [] then [(0, "C")] else result.2

/-- `identifyChord` applied to an `AudioAnalyzer.calculateChromagram`
result, whose entries are `Option ℚ` (`none` = non-finite).  A `none`
can only occur when the window was silent, in which case *all twelve*
entries are `NaN`; an ECMAScript sort treats a `NaN` comparator result
as equality and, being stable, keeps the original order — exactly what
reading all the entries as the equal value `0` produces here. -/
def identifyChordOpt (chrom : List (Option ℚ)) : String :=
  identifyChord (chrom.map (fun o => o.getD 0))

/-- `AudioAnalyzer.detectChords` (audio-analyzer.js): 2-second
non-overlapping windows, chromagram plus template matching per window,
no duplicate collapsing, no short-window skip and no default event.
The event is modelled by its window start time in seconds and chord
label (the code renders `"start - end"` as a string).  The same
iteration-count note as for `detectChordsW` applies. -/
def detectChordsA (M : JSMath) (data : List ℚ) (sampleRate : ℕ) :
    List (ℚ × String) :=
  let windowSize := 2 * sampleRate
  let n := if windowSize = 0 then 0 else (data.length + windowSize - 1) / windowSize
  (List.range n).map (fun (k : ℕ) =>
    let window := (data.drop (windowSize * k)).take windowSize
    let chromagram := calculateChromagram M window sampleRate
    (((windowSize * k : ℕ) : ℚ) / (sampleRate : ℚ), identifyChordOpt chromagram))

/-- C1 as stated is false: the two chord-detection paths do not produce
identical event sequences for every input — on empty input the
synchronous fallback produces no events at all while the worker
produces its single default `C` event. -/
theorem chords_paths_differ_counterexample :
    detectChordsA mathZero [] 44100 ≠ detectChordsW [] 44100 ∧
    detectChordsA mathZero [] 44100 = [] ∧
    detectChordsW [] 44100 = [(0, "C")] := by
  have h1 : detectChordsA mathZero [] 44100 = [] := rfl
  have h2 : detectChordsW [] 44100 = [(0, "C")] := rfl
  refine ⟨?_, h1, h2⟩
  rw [h1, h2]
  simp

/-- C1, amended: the worker path and the synchronous fallback are
different algorithms (1-second energy-heuristic windows with
deduplication and a default event, versus 2-second chromagram/template
windows with neither) and are not semantically identical; in
particular, for every positive sample rate, on input producing no
windows the fallback returns no events while the worker returns the
single default event `(0, "C")`. -/
theorem chords_fallback_worker_divergence (M : JSMath) (sampleRate : ℕ)
    (hsr : 0 < sampleRate) :
    detectChordsA M [] sampleRate = [] ∧
    detectChordsW [] sampleRate = [(0, "C")] := by
  constructor
  · have hn : (if 2 * sampleRate = 0 then 0
        else (([] : List ℚ).length + 2 * sampleRate - 1) / (2 * sampleRate)) = 0 := by
      rw [if_neg (by omega), List.length_nil, Nat.zero_add]
      exact Nat.div_eq_of_lt (by omega)
    simp only [detectChordsA]
    rw [hn]
    simp
  · have hn : (if sampleRate = 0 then 0
        else (([] : List ℚ).length + sampleRate - 1) / sampleRate) = 0 := by
      rw [if_neg (by omega), List.length_nil, Nat.zero_add]
      exact Nat.div_eq_of_lt (by omega)
    simp only [detectChordsW]
    rw [hn]
    simp

theorem chords_fallback_worker_divergence_witness :
    0 < 44100 ∧
    (detectChordsA mathZero [] 44100 = [] ∧
     detectChordsW [] 44100 = [(0, "C")]) :=
  ⟨by norm_num, chords_fallback_worker_divergence mathZero 44100 (by norm_num)⟩
